import Mathlib

/-!
Verification of the dropcode CLI (`src/index.ts`).

The program resolves a snippet identifier or URL against an allow-list of
domains, fetches file metadata, derives a local filename, resolves filename
conflicts through an interactive menu, and downloads the file.

Embedding conventions:
* The WHATWG `new URL(...)` parser is external library code; it is abstracted
  as a parameter `parse : String → Option URLParts` yielding the `hostname`
  and `pathname` fields used by the program.
* The filesystem (current working directory) is modelled as the list of
  filenames it contains; `existsSync` becomes list membership.
* Interactive stdin input is modelled as the list of lines the user enters;
  an exhausted list corresponds to a session still blocked on input.
* JavaScript string primitives used by the code (`includes`, `trim`,
  `split`) are given explicit executable models over `List Char`.
-/

namespace Dropcode

/-- Model of JavaScript `String.prototype.startsWith` on char lists: does
the list start with the pattern? -/
def startsWithL (pat : List Char) : List Char → Bool :=
  fun s =>
    match pat, s with
    | [], _ => true
    | _ :: _, [] => false
    | p :: ps, c :: cs => p == c && startsWithL ps cs

/-- Model of JavaScript `String.prototype.includes`: does the pattern occur
as a contiguous substring? -/
def containsL (pat : List Char) : List Char → Bool
  | [] => startsWithL pat []
  | c :: cs => startsWithL pat (c :: cs) || containsL pat cs

/-- Model of JavaScript `String.prototype.trim`: strip whitespace from both
ends. -/
def jsTrim (s : String) : String :=
  ⟨((s.data.dropWhile Char.isWhitespace).reverse.dropWhile Char.isWhitespace).reverse⟩

/-- Model of JavaScript `String.prototype.split` with a single-character
separator; `splitOnChar sep cs` never returns `[]`, matching JS where
`"".split(sep)` is `[""]`. -/
def splitOnChar (sep : Char) : List Char → List (List Char)
  | [] => [[]]
  | c :: cs =>
    let r := splitOnChar sep cs
    if c == sep then [] :: r
    else
      match r with
      | [] => [[c]]
      | h :: t => (c :: h) :: t

/-- The fixed allow-list `SUPPORTED_DOMAINS` from `src/index.ts`. -/
def SUPPORTED_DOMAINS : List String :=
  ["dropcode.tonary.app", "dc.tonary.app", "dropcode.lolkek.lol", "dc.lolkek.lol"]

/-- The two fields of a parsed WHATWG URL object that the program reads. -/
structure URLParts where
  hostname : String
  pathname : String
deriving DecidableEq

/-- Result record of `extractSnippetId`. -/
structure ResolvedSnippet where
  snippetId : String
  baseUrl : String
deriving DecidableEq

/-- `extractSnippetId` from `src/index.ts` (lines 34-70): bare identifiers
(no `://`, no `/`) are paired with the first supported domain; otherwise the
input is parsed as a URL, the hostname checked against the allow-list, and
the snippet id taken from the pathname with one leading slash stripped.
`null` returns become `none`. -/
def extractSnippetId (parse : String → Option URLParts) (input : String) :
    Option ResolvedSnippet :=
  if !(containsL "://".data input.data) && !(containsL "/".data input.data) then
    some ⟨input, "https://" ++ SUPPORTED_DOMAINS.headD ""⟩
  else
    match parse input with
    | none => none
    | some urlObj =>
      match SUPPORTED_DOMAINS.find? (fun domain => urlObj.hostname == domain) with
      | none => none
      | some matchedDomain =>
        let snippetId : String :=
          match urlObj.pathname.data with
          | '/' :: rest => ⟨rest⟩
          | _ => urlObj.pathname
        if snippetId = "" then none
        else some ⟨snippetId, "https://" ++ matchedDomain⟩

/-- The last element of `pathname.split('/')` (the value of the JS
expression `pathname.split('/').pop()`, which is never `undefined` since
`split` never yields an empty array). -/
def lastPathSegment (pathname : String) : String :=
  ((splitOnChar '/' pathname.data).map String.mk).getLastD ""

/-- `getFilenameFromUrl` from `src/index.ts` (lines 105-114): the last path
segment of the parsed URL, or `dropcode-{snippetId}` when parsing fails or
the segment is empty (JS `||` on a falsy `""`/`undefined`). -/
def getFilenameFromUrl (parse : String → Option URLParts) (url snippetId : String) :
    String :=
  match parse url with
  | some urlObj =>
    let filename := lastPathSegment urlObj.pathname
    if filename = "" then "dropcode-" ++ snippetId else filename
  | none => "dropcode-" ++ snippetId

/-- C6: an input with neither `://` nor `/` is returned unchanged as the
snippet id, paired with `https://` plus the first allow-listed domain, and
the result does not depend on the URL parser at all (no validation, no
parsing). -/
theorem bare_id_unchanged (parse : String → Option URLParts) (input : String)
    (h1 : containsL "://".data input.data = false)
    (h2 : containsL "/".data input.data = false) :
    extractSnippetId parse input = some ⟨input, "https://dropcode.tonary.app"⟩ ∧
    ∀ parse' : String → Option URLParts,
      extractSnippetId parse' input = extractSnippetId parse input := by
  constructor
  · simp [extractSnippetId, h1, h2]
    rfl
  · intro parse'
    simp [extractSnippetId, h1, h2]

/-- Witness for `bare_id_unchanged` at the concrete input `"abc123"`. -/
theorem bare_id_unchanged_witness :
    extractSnippetId (fun _ => none) "abc123" =
      some ⟨"abc123", "https://dropcode.tonary.app"⟩ :=
  (bare_id_unchanged (fun _ => none) "abc123" (by decide) (by decide)).1

/-- C10: the empty string is accepted as a bare snippet id and paired with
the default base URL, even though the URL branch rejects an empty
path-derived id (second conjunct: an allow-listed URL whose pathname is just
`/` is rejected). -/
theorem empty_bare_id_accepted (parse : String → Option URLParts) :
    extractSnippetId parse "" = some ⟨"", "https://dropcode.tonary.app"⟩ ∧
    ∀ (input : String) (u : URLParts),
      containsL "/".data input.data = true →
      parse input = some u →
      u.hostname = "dropcode.tonary.app" →
      u.pathname = "/" →
      extractSnippetId parse input = none := by
  constructor
  · have h1 : containsL "://".data "".data = false := by decide
    have h2 : containsL "/".data "".data = false := by decide
    simp [extractSnippetId, h1, h2]
    rfl
  · intro input u hslash hp hhost hpath
    simp [extractSnippetId, hslash, hp, hhost, hpath, SUPPORTED_DOMAINS]

/-- Witness for `empty_bare_id_accepted` with a concrete parser that sends
`"dropcode.tonary.app/"` to hostname `dropcode.tonary.app`, pathname `/`. -/
theorem empty_bare_id_accepted_witness :
    extractSnippetId (fun _ => some ⟨"dropcode.tonary.app", "/"⟩) "" =
      some ⟨"", "https://dropcode.tonary.app"⟩ ∧
    extractSnippetId (fun _ => some ⟨"dropcode.tonary.app", "/"⟩)
      "dropcode.tonary.app/" = none := by
  refine ⟨(empty_bare_id_accepted _).1, ?_⟩
  exact (empty_bare_id_accepted _).2 "dropcode.tonary.app/" ⟨"dropcode.tonary.app", "/"⟩
    (by decide) rfl rfl rfl

/-- C8: the filename deriver returns the last path segment of the download
URL when that segment is nonempty, and the synthesized
`dropcode-{snippetId}` when URL parsing fails or the last segment is empty
(no path segments). It is a total pure function. -/
theorem filename_from_url_spec (parse : String → Option URLParts)
    (url snippetId : String) :
    (parse url = none →
      getFilenameFromUrl parse url snippetId = "dropcode-" ++ snippetId) ∧
    (∀ u : URLParts, parse url = some u →
      (lastPathSegment u.pathname = "" →
        getFilenameFromUrl parse url snippetId = "dropcode-" ++ snippetId) ∧
      (lastPathSegment u.pathname ≠ "" →
        getFilenameFromUrl parse url snippetId = lastPathSegment u.pathname)) := by
  refine ⟨fun h => by simp [getFilenameFromUrl, h], fun u hu => ⟨fun he => ?_, fun hne => ?_⟩⟩
  · simp [getFilenameFromUrl, hu, he]
  · simp [getFilenameFromUrl, hu, hne]

/-- Witness for `filename_from_url_spec`: a parser mapping the URL to
pathname `/files/App.tsx` makes the deriver return `App.tsx`; a failing
parser yields the synthesized name. -/
theorem filename_from_url_spec_witness :
    getFilenameFromUrl (fun _ => some ⟨"h", "/files/App.tsx"⟩) "u" "id0" = "App.tsx" ∧
    getFilenameFromUrl (fun _ => none) "u" "id0" = "dropcode-id0" := by
  constructor
  · have h := ((filename_from_url_spec (fun _ => some ⟨"h", "/files/App.tsx"⟩)
      "u" "id0").2 ⟨"h", "/files/App.tsx"⟩ rfl).2 (by decide)
    rw [h]
    decide
  · exact (filename_from_url_spec (fun _ => none) "u" "id0").1 rfl

/-! Decimal rendering of counters: the JS template `${counter}` prints the
counter in decimal, which the embedding renders with `Nat.repr`. The
numbered-filename argument needs `Nat.repr` to be injective, proved here via
a digit-valuation round trip. -/

/-- Value of a list of decimal digit characters, most significant first. -/
def digitsVal (cs : List Char) : Nat :=
  cs.foldl (fun a c => a * 10 + (c.toNat - 48)) 0

theorem toDigitsCore_append (fuel : Nat) :
    ∀ (n : Nat) (ds : List Char), n < fuel →
      Nat.toDigitsCore 10 fuel n ds = Nat.toDigitsCore 10 fuel n [] ++ ds := by
  induction fuel with
  | zero => intro n ds h; omega
  | succ fuel ih =>
    intro n ds _
    simp only [Nat.toDigitsCore]
    by_cases h10 : n / 10 = 0
    · simp [h10]
    · simp only [h10, if_false]
      have hlt : n / 10 < fuel := by omega
      rw [ih (n / 10) (Nat.digitChar (n % 10) :: ds) hlt,
        ih (n / 10) [Nat.digitChar (n % 10)] hlt]
      simp

theorem toDigitsCore_fuel (fuel₁ : Nat) :
    ∀ (fuel₂ n : Nat), n < fuel₁ → n < fuel₂ →
      Nat.toDigitsCore 10 fuel₁ n [] = Nat.toDigitsCore 10 fuel₂ n [] := by
  induction fuel₁ with
  | zero => intro fuel₂ n h; omega
  | succ fuel₁ ih =>
    intro fuel₂ n h₁ h₂
    cases fuel₂ with
    | zero => omega
    | succ fuel₂ =>
      simp only [Nat.toDigitsCore]
      by_cases h10 : n / 10 = 0
      · simp [h10]
      · simp only [h10, if_false]
        have ha : n / 10 < fuel₁ := by omega
        have hb : n / 10 < fuel₂ := by omega
        rw [toDigitsCore_append fuel₁ (n / 10) [Nat.digitChar (n % 10)] ha,
          toDigitsCore_append fuel₂ (n / 10) [Nat.digitChar (n % 10)] hb,
          ih fuel₂ (n / 10) ha hb]

theorem toDigits_of_lt (n : Nat) (h : n < 10) :
    Nat.toDigits 10 n = [Nat.digitChar n] := by
  simp only [Nat.toDigits, Nat.toDigitsCore]
  have h10 : n / 10 = 0 := by omega
  have hm : n % 10 = n := by omega
  simp [h10, hm]

theorem toDigits_of_ge (n : Nat) (h : 10 ≤ n) :
    Nat.toDigits 10 n = Nat.toDigits 10 (n / 10) ++ [Nat.digitChar (n % 10)] := by
  have h10 : ¬ n / 10 = 0 := by omega
  have hstep : Nat.toDigitsCore 10 (n + 1) n [] =
      Nat.toDigitsCore 10 n (n / 10) [Nat.digitChar (n % 10)] := by
    simp only [Nat.toDigitsCore, h10, if_false]
  rw [show Nat.toDigits 10 n = Nat.toDigitsCore 10 (n + 1) n [] from rfl, hstep,
    toDigitsCore_append n (n / 10) [Nat.digitChar (n % 10)] (by omega),
    toDigitsCore_fuel n (n / 10 + 1) (n / 10) (by omega) (by omega)]
  rfl

theorem digitChar_val (n : Nat) (h : n < 10) : (Nat.digitChar n).toNat - 48 = n := by
  interval_cases n <;> decide

theorem digitsVal_toDigits (n : Nat) : digitsVal (Nat.toDigits 10 n) = n := by
  induction n using Nat.strong_induction_on with
  | _ n ih =>
    by_cases h : n < 10
    · rw [toDigits_of_lt n h]
      simp [digitsVal, digitChar_val n h]
    · push_neg at h
      rw [toDigits_of_ge n h]
      have hd : n / 10 < n := by omega
      have := ih (n / 10) hd
      simp only [digitsVal, List.foldl_append, List.foldl_cons, List.foldl_nil] at this ⊢
      rw [this, digitChar_val (n % 10) (by omega)]
      omega

theorem natRepr_data (n : Nat) : (Nat.repr n).data = Nat.toDigits 10 n := rfl

theorem natRepr_inj {m n : Nat} (h : Nat.repr m = Nat.repr n) : m = n := by
  have hd : Nat.toDigits 10 m = Nat.toDigits 10 n := by
    rw [← natRepr_data, ← natRepr_data, h]
  rw [← digitsVal_toDigits m, ← digitsVal_toDigits n, hd]

/-- Split a character list at its last `'.'`: `some (before, fromDot)` where
`fromDot` starts with the dot, or `none` when no dot occurs. Used to model
Node's `path.extname`/`path.basename` on slash-free filenames. -/
def lastDotSplit : List Char → Option (List Char × List Char)
  | [] => none
  | c :: cs =>
    match lastDotSplit cs with
    | some (pre, suf) => some (c :: pre, suf)
    | none => if c = '.' then some ([], c :: cs) else none

/-- Drop the trailing `'/'` separators of a POSIX path (Node's path
functions ignore them). -/
def stripTrailingSlashes (cs : List Char) : List Char :=
  (cs.reverse.dropWhile (fun c => c == '/')).reverse

/-- The last path component of a POSIX path, trailing separators trimmed:
the maximal slash-free suffix. `[]` for an empty or slash-only path. -/
def lastComponent (cs : List Char) : List Char :=
  ((stripTrailingSlashes cs).reverse.takeWhile (fun c => c != '/')).reverse

/-- Node `path.posix.extname`: on the last path component, the suffix from
its last dot; `""` when the component has no dot, when its only dot is the
leading character (dotfiles), or when the component is exactly `".."` (the
source's `preDotState` special case). -/
def extname (f : String) : String :=
  if lastComponent f.data = ['.', '.'] then ""
  else
    match lastDotSplit (lastComponent f.data) with
    | some (_ :: _, suf) => ⟨suf⟩
    | _ => ""

/-- Node `path.posix.basename(f, extname f)`: the last path component with
the `extname` suffix stripped. Since `extname f` is always a strict suffix
of the component when nonempty, this is the part before the component's
last dot whenever `extname` is nonempty, and the whole component otherwise
(with Node's conventions `basename("") = ""` and `basename("//") = "/"`
for degenerate paths). -/
def nameWithoutExt (f : String) : String :=
  if lastComponent f.data = [] then (if f.data = [] then "" else "/")
  else if lastComponent f.data = ['.', '.'] then ⟨lastComponent f.data⟩
  else
    match lastDotSplit (lastComponent f.data) with
    | some (c :: pre, _) => ⟨c :: pre⟩
    | _ => ⟨lastComponent f.data⟩

/-- `fileExists` from `src/index.ts` (lines 119-122), with the working
directory modelled as the list of filenames it contains. -/
def fileExists (dir : List String) (filename : String) : Bool :=
  decide (filename ∈ dir)

/-- The JS template `` `${nameWithoutExt} (${counter})${ext}` `` from
`generateNumberedFilename`. -/
def numberedCandidate (base ext : String) (counter : Nat) : String :=
  base ++ " (" ++ Nat.repr counter ++ ")" ++ ext

/-- The `while (existsSync ...)` loop of `generateNumberedFilename`,
written with explicit fuel; `dir.length + 1` fuel always suffices (shown in
`numberedLoop_fuel_suffices` below), so the fueled form agrees with the
source's unbounded loop. -/
def numberedLoop (dir : List String) (base ext : String) : Nat → Nat → String
  | 0, counter => numberedCandidate base ext counter
  | fuel + 1, counter =>
    let newFilename := numberedCandidate base ext counter
    if fileExists dir newFilename then numberedLoop dir base ext fuel (counter + 1)
    else newFilename

/-- `generateNumberedFilename` from `src/index.ts` (lines 127-139). -/
def generateNumberedFilename (dir : List String) (originalFilename : String) : String :=
  numberedLoop dir (nameWithoutExt originalFilename) (extname originalFilename)
    (dir.length + 1) 2

theorem numberedCandidate_inj (base ext : String) {j k : Nat}
    (h : numberedCandidate base ext j = numberedCandidate base ext k) : j = k := by
  have hd := congrArg String.data h
  simp only [numberedCandidate, String.data_append] at hd
  simp only [List.append_assoc] at hd
  have h1 := List.append_cancel_left hd
  have h2 := List.append_cancel_left h1
  have h3 := List.append_cancel_right h2
  exact natRepr_inj (String.ext h3)

/-- Pigeonhole: among any `dir.length + 1` consecutive numbered candidates
at least one is absent from `dir`. -/
theorem exists_free_candidate (dir : List String) (base ext : String) (k : Nat) :
    ∃ j, k ≤ j ∧ j < k + (dir.length + 1) ∧ numberedCandidate base ext j ∉ dir := by
  by_contra hcon
  push_neg at hcon
  have hsub : (List.range' k (dir.length + 1)).map (numberedCandidate base ext) ⊆ dir := by
    intro x hx
    simp only [List.mem_map, List.mem_range'_1] at hx
    obtain ⟨j, ⟨hj1, hj2⟩, rfl⟩ := hx
    exact hcon j hj1 hj2
  have hnd : ((List.range' k (dir.length + 1)).map (numberedCandidate base ext)).Nodup := by
    refine (List.nodup_range' k (dir.length + 1)).map_on ?_
    intro a _ b _ hab
    exact numberedCandidate_inj base ext hab
  have hlen := (List.subperm_of_subset hnd hsub).length_le
  simp at hlen

theorem numberedLoop_spec (dir : List String) (base ext : String) :
    ∀ (fuel k : Nat),
      (∃ j, k ≤ j ∧ j < k + fuel ∧ numberedCandidate base ext j ∉ dir) →
      ∃ m, k ≤ m ∧ numberedLoop dir base ext fuel k = numberedCandidate base ext m ∧
        numberedCandidate base ext m ∉ dir ∧
        ∀ i, k ≤ i → i < m → numberedCandidate base ext i ∈ dir := by
  intro fuel
  induction fuel with
  | zero =>
    intro k ⟨j, hk, hj, _⟩
    omega
  | succ fuel ih =>
    intro k ⟨j, hkj, hj, hfree⟩
    by_cases hmem : numberedCandidate base ext k ∈ dir
    · have hne : j ≠ k := fun he => hfree (he ▸ hmem)
      obtain ⟨m, hm1, hm2, hm3, hm4⟩ := ih (k + 1) ⟨j, by omega, by omega, hfree⟩
      refine ⟨m, by omega, ?_, hm3, ?_⟩
      · simpa [numberedLoop, fileExists, hmem] using hm2
      · intro i hi1 hi2
        rcases Nat.eq_or_lt_of_le hi1 with rfl | hlt
        · exact hmem
        · exact hm4 i hlt hi2
    · refine ⟨k, le_refl k, ?_, hmem, fun i h1 h2 => absurd (lt_of_le_of_lt h1 h2) (lt_irrefl k)⟩
      simp [numberedLoop, fileExists, hmem]

/-- With `dir.length + 1` fuel the loop always lands on the least free
counter at or above its start. -/
theorem numberedLoop_fuel_suffices (dir : List String) (base ext : String) (k : Nat) :
    ∃ m, k ≤ m ∧
      numberedLoop dir base ext (dir.length + 1) k = numberedCandidate base ext m ∧
      numberedCandidate base ext m ∉ dir ∧
      ∀ i, k ≤ i → i < m → numberedCandidate base ext i ∈ dir :=
  numberedLoop_spec dir base ext (dir.length + 1) k (exists_free_candidate dir base ext k)

/-- The generated numbered filename never collides with an existing file. -/
theorem generateNumberedFilename_not_mem (dir : List String) (f : String) :
    generateNumberedFilename dir f ∉ dir := by
  obtain ⟨m, _, he, hfree, _⟩ :=
    numberedLoop_fuel_suffices dir (nameWithoutExt f) (extname f) 2
  rw [generateNumberedFilename, he]
  exact hfree

theorem lastDotSplit_of_no_dot : ∀ (cs : List Char), '.' ∉ cs → lastDotSplit cs = none := by
  intro cs
  induction cs with
  | nil => intro _; rfl
  | cons c cs ih =>
    intro h
    have hc : ¬ c = '.' := fun he => h (he ▸ List.mem_cons_self c cs)
    have ht : '.' ∉ cs := fun hm => h (List.mem_cons_of_mem c hm)
    simp [lastDotSplit, ih ht, hc]

theorem lastDotSplit_append_dot (ext : List Char) (hext : '.' ∉ ext) :
    ∀ (name : List Char), lastDotSplit (name ++ '.' :: ext) = some (name, '.' :: ext) := by
  intro name
  induction name with
  | nil => simp [lastDotSplit, lastDotSplit_of_no_dot ext hext]
  | cons c cs ih => simp [lastDotSplit, ih]

theorem stripTrailingSlashes_of_no_slash (cs : List Char) (h : '/' ∉ cs) :
    stripTrailingSlashes cs = cs := by
  have hd : cs.reverse.dropWhile (fun c => c == '/') = cs.reverse := by
    cases hr : cs.reverse with
    | nil => rfl
    | cons a t =>
      have ha : a ∈ cs := by
        rw [← List.mem_reverse, hr]
        exact List.mem_cons_self a t
      have hne : (a == '/') = false := by
        simp only [beq_eq_false_iff_ne]
        exact fun he => h (he ▸ ha)
      simp [List.dropWhile_cons, hne]
  simp only [stripTrailingSlashes, hd, List.reverse_reverse]

theorem lastComponent_of_no_slash (cs : List Char) (h : '/' ∉ cs) :
    lastComponent cs = cs := by
  have hstrip := stripTrailingSlashes_of_no_slash cs h
  have htake : cs.reverse.takeWhile (fun c => c != '/') = cs.reverse := by
    rw [List.takeWhile_eq_self_iff]
    intro a ha
    have hm : a ∈ cs := List.mem_reverse.mp ha
    simp only [bne_iff_ne]
    exact fun he => h (he ▸ hm)
  simp only [lastComponent, hstrip, htake, List.reverse_reverse]

theorem extname_of_dotted (name ext : String) (hname : name ≠ "") (hextne : ext ≠ "")
    (hdot : '.' ∉ ext.data) (hns : '/' ∉ name.data) (hes : '/' ∉ ext.data) :
    extname (name ++ "." ++ ext) = "." ++ ext ∧
    nameWithoutExt (name ++ "." ++ ext) = name := by
  have hdata : (name ++ "." ++ ext).data = name.data ++ '.' :: ext.data := by
    simp [String.data_append]
  have hnoslash : '/' ∉ (name ++ "." ++ ext).data := by
    rw [hdata]
    simp only [List.mem_append, List.mem_cons]
    rintro (h | h | h)
    · exact hns h
    · exact absurd h (by decide)
    · exact hes h
  have hcomp : lastComponent (name ++ "." ++ ext).data = name.data ++ '.' :: ext.data := by
    rw [lastComponent_of_no_slash _ hnoslash, hdata]
  obtain ⟨c, cs, hcs⟩ : ∃ c cs, name.data = c :: cs := by
    cases name with
    | mk d =>
      cases d with
      | nil => exact absurd rfl hname
      | cons c cs => exact ⟨c, cs, rfl⟩
  obtain ⟨e, es, hes2⟩ : ∃ e es, ext.data = e :: es := by
    cases ext with
    | mk d =>
      cases d with
      | nil => exact absurd rfl hextne
      | cons e es => exact ⟨e, es, rfl⟩
  have hne2 : name.data ++ '.' :: ext.data ≠ ['.', '.'] := by
    intro h
    have hl := congrArg List.length h
    simp [hcs, hes2] at hl
    omega
  have hnenil : name.data ++ '.' :: ext.data ≠ [] := by simp
  have hsplit := lastDotSplit_append_dot ext.data hdot name.data
  constructor
  · simp only [extname, hcomp]
    rw [if_neg hne2, hsplit, hcs]
    refine String.ext ?_
    simp [String.data_append]
  · simp only [nameWithoutExt, hcomp]
    rw [if_neg hnenil, if_neg hne2, hsplit, hcs]
    refine String.ext ?_
    simp [hcs]

/-- C5: for a filename of the form `name.ext` (nonempty slash-free `name`,
nonempty dot-free slash-free `ext`), the generator returns `name (k).ext`
for the least `k ≥ 2` whose candidate is not in the directory. -/
theorem generateNumberedFilename_least (dir : List String) (name ext : String)
    (hname : name ≠ "") (hextne : ext ≠ "") (hext : '.' ∉ ext.data)
    (hns : '/' ∉ name.data) (hes : '/' ∉ ext.data) :
    ∃ k, 2 ≤ k ∧
      generateNumberedFilename dir (name ++ "." ++ ext) =
        name ++ " (" ++ Nat.repr k ++ ")." ++ ext ∧
      (name ++ " (" ++ Nat.repr k ++ ")." ++ ext) ∉ dir ∧
      ∀ j, 2 ≤ j → j < k → (name ++ " (" ++ Nat.repr j ++ ")." ++ ext) ∈ dir := by
  obtain ⟨hext', hbase⟩ := extname_of_dotted name ext hname hextne hext hns hes
  have hcand : ∀ k, numberedCandidate (nameWithoutExt (name ++ "." ++ ext))
      (extname (name ++ "." ++ ext)) k = name ++ " (" ++ Nat.repr k ++ ")." ++ ext := by
    intro k
    rw [hext', hbase, numberedCandidate]
    apply String.ext
    simp [String.data_append]
  obtain ⟨m, hm1, hm2, hm3, hm4⟩ :=
    numberedLoop_fuel_suffices dir (nameWithoutExt (name ++ "." ++ ext))
      (extname (name ++ "." ++ ext)) 2
  refine ⟨m, hm1, ?_, ?_, ?_⟩
  · rw [generateNumberedFilename, hm2, hcand]
  · rw [← hcand]; exact hm3
  · intro j h2 hj
    rw [← hcand]
    exact hm4 j h2 hj

/-- Witness for `generateNumberedFilename_least`: with `App.tsx` and
`App (2).tsx` present, the generator returns `App (3).tsx`. -/
theorem generateNumberedFilename_least_witness :
    generateNumberedFilename ["App.tsx", "App (2).tsx"] "App.tsx" = "App (3).tsx" ∧
    (∃ k, 2 ≤ k ∧
      generateNumberedFilename ["App.tsx", "App (2).tsx"] ("App" ++ "." ++ "tsx") =
        "App" ++ " (" ++ Nat.repr k ++ ")." ++ "tsx" ∧
      ("App" ++ " (" ++ Nat.repr k ++ ")." ++ "tsx") ∉ ["App.tsx", "App (2).tsx"] ∧
      ∀ j, 2 ≤ j → j < k →
        ("App" ++ " (" ++ Nat.repr j ++ ")." ++ "tsx") ∈ ["App.tsx", "App (2).tsx"]) := by
  constructor
  · decide
  · exact generateNumberedFilename_least ["App.tsx", "App (2).tsx"] "App" "tsx"
      (by decide) (by decide) (by decide) (by decide) (by decide)

/-- Terminal outcome of `handleFileNameConflict`, tagged with the menu path
that produced it (the spec's ConflictDecision). `noInput` models a session
still blocked reading stdin when the modelled input list is exhausted. -/
inductive ConflictResult where
  | replace (name : String)
  | autoNumbered (name : String)
  | custom (name : String)
  | cancelled
  | noInput
deriving DecidableEq

/-- Menu level of the interactive session: the top menu, or the
custom-filename sub-menu carrying the single most-recently-rejected name
(the `firstAttemptName` variable of the source). -/
inductive MenuState where
  | top
  | customEntry (firstAttemptName : Option String)
deriving DecidableEq

/-- The prompt loop of `handleFileNameConflict` (`src/index.ts` lines
163-245), one user answer consumed per step. The source's recursive call
`handleFileNameConflict(trimmedName)` on a repeated duplicate is inlined as
a fresh `top` state with a freshly generated auto-numbered name. -/
def conflictLoop (dir : List String) (originalFilename autoNumberedName : String) :
    MenuState → List String → ConflictResult
  | _, [] => .noInput
  | .top, answer :: rest =>
    let choice := jsTrim answer
    if choice = "1" then .replace originalFilename
    else if choice = "2" then .autoNumbered autoNumberedName
    else if choice = "3" then
      conflictLoop dir originalFilename autoNumberedName (.customEntry none) rest
    else if choice = "4" then .cancelled
    else conflictLoop dir originalFilename autoNumberedName .top rest
  | .customEntry firstAttemptName, customName :: rest =>
    let trimmedName := jsTrim customName
    if trimmedName = "" then
      match firstAttemptName with
      | none => conflictLoop dir originalFilename autoNumberedName (.customEntry none) rest
      | some _ => conflictLoop dir originalFilename autoNumberedName .top rest
    else if fileExists dir trimmedName then
      match firstAttemptName with
      | none =>
        conflictLoop dir originalFilename autoNumberedName
          (.customEntry (some trimmedName)) rest
      | some firstAttempt =>
        if trimmedName = firstAttempt then
          conflictLoop dir trimmedName (generateNumberedFilename dir trimmedName) .top rest
        else
          conflictLoop dir originalFilename autoNumberedName
            (.customEntry (some trimmedName)) rest
    else .custom trimmedName

/-- `handleFileNameConflict` from `src/index.ts` (lines 163-245): compute
the auto-numbered alternative once, then run the menu loop from the top
menu. -/
def handleFileNameConflict (dir : List String) (originalFilename : String)
    (inputs : List String) : ConflictResult :=
  conflictLoop dir originalFilename (generateNumberedFilename dir originalFilename)
    .top inputs

/-- The invariant claimed for terminal outcomes: auto-numbered and custom
names are absent from the directory; a Replace outcome names an existing
file. -/
def ConflictInvariant (dir : List String) : ConflictResult → Prop
  | .replace n => n ∈ dir
  | .autoNumbered n => n ∉ dir
  | .custom n => n ∉ dir
  | .cancelled => True
  | .noInput => True

theorem conflict_invariant_aux :
    ∀ (inputs dir : List String) (originalFilename autoNumberedName : String)
      (st : MenuState),
      originalFilename ∈ dir → autoNumberedName ∉ dir →
      ConflictInvariant dir
        (conflictLoop dir originalFilename autoNumberedName st inputs) := by
  intro inputs
  induction inputs with
  | nil =>
    intro dir originalFilename autoNumberedName st hmem hauto
    cases st <;> exact trivial
  | cons i rest ih =>
    intro dir originalFilename autoNumberedName st hmem hauto
    cases st with
    | top =>
      rw [conflictLoop]
      by_cases h1 : jsTrim i = "1"
      · simpa [h1] using hmem
      · by_cases h2 : jsTrim i = "2"
        · simpa [h1, h2] using hauto
        · by_cases h3 : jsTrim i = "3"
          · simpa [h1, h2, h3] using
              ih dir originalFilename autoNumberedName (.customEntry none) hmem hauto
          · by_cases h4 : jsTrim i = "4"
            · simp [h1, h2, h3, h4, ConflictInvariant]
            · simpa [h1, h2, h3, h4] using
                ih dir originalFilename autoNumberedName .top hmem hauto
    | customEntry firstAttemptName =>
      cases firstAttemptName with
      | none =>
        rw [conflictLoop]
        by_cases he : jsTrim i = ""
        · simpa [he] using
            ih dir originalFilename autoNumberedName (.customEntry none) hmem hauto
        · by_cases hex : fileExists dir (jsTrim i)
          · simpa [he, hex] using
              ih dir originalFilename autoNumberedName
                (.customEntry (some (jsTrim i))) hmem hauto
          · have hnot : jsTrim i ∉ dir := by
              simpa [fileExists] using hex
            simpa [he, hex, ConflictInvariant] using hnot
      | some fa =>
        rw [conflictLoop]
        by_cases he : jsTrim i = ""
        · simpa [he] using ih dir originalFilename autoNumberedName .top hmem hauto
        · by_cases hex : fileExists dir (jsTrim i)
          · by_cases hfa : jsTrim i = fa
            · rw [hfa] at he hex
              have hmem' : fa ∈ dir := by
                simpa [fileExists] using hex
              simpa [he, hex, hfa] using
                ih dir fa (generateNumberedFilename dir fa) .top hmem'
                  (generateNumberedFilename_not_mem dir fa)
            · simpa [he, hex, hfa] using
                ih dir originalFilename autoNumberedName
                  (.customEntry (some (jsTrim i))) hmem hauto
          · have hnot : jsTrim i ∉ dir := by
              simpa [fileExists] using hex
            simpa [he, hex, ConflictInvariant] using hnot

/-- C1: when the conflict resolver is entered for an existing file, every
auto-numbered or custom terminal outcome names a file absent from the
directory at the accepting existence check, a Replace outcome always names
an existing file, and the original (existing) name can only come back out
of a Replace choice. -/
theorem conflict_resolver_invariant (dir : List String)
    (originalFilename : String) (inputs : List String)
    (hmem : originalFilename ∈ dir) :
    ConflictInvariant dir (handleFileNameConflict dir originalFilename inputs) ∧
    (∀ n, handleFileNameConflict dir originalFilename inputs = .autoNumbered n ∨
          handleFileNameConflict dir originalFilename inputs = .custom n →
          n ≠ originalFilename) := by
  have hbase := conflict_invariant_aux inputs dir originalFilename
    (generateNumberedFilename dir originalFilename) .top hmem
    (generateNumberedFilename_not_mem dir originalFilename)
  refine ⟨hbase, ?_⟩
  intro n hn heq
  rcases hn with h | h <;>
  · rw [handleFileNameConflict] at h
    have hc := hbase
    rw [h] at hc
    exact hc (heq ▸ hmem)

/-- Witness for `conflict_resolver_invariant`: with only `App.tsx` present
and the user choosing option 2, the resolver returns the auto-numbered
`App (2).tsx`, which is not in the directory. -/
theorem conflict_resolver_invariant_witness :
    ("App.tsx" ∈ ["App.tsx"]) ∧
    ConflictInvariant ["App.tsx"] (handleFileNameConflict ["App.tsx"] "App.tsx" ["2"]) ∧
    handleFileNameConflict ["App.tsx"] "App.tsx" ["2"] = .autoNumbered "App (2).tsx" := by
  refine ⟨by decide,
    (conflict_resolver_invariant ["App.tsx"] "App.tsx" ["2"] (by decide)).1, ?_⟩
  decide

/-- C9: any top-menu answer trimming to `"1"` (Replace) immediately ends
the session with the original filename, for every directory state and
every remainder of the input stream. -/
theorem replace_returns_original (dir : List String) (originalFilename s : String)
    (rest : List String) (h : jsTrim s = "1") :
    handleFileNameConflict dir originalFilename (s :: rest) = .replace originalFilename := by
  rw [handleFileNameConflict, conflictLoop]
  simp [h]

/-- Witness for `replace_returns_original` at a concrete session. -/
theorem replace_returns_original_witness :
    handleFileNameConflict ["notes.txt"] "notes.txt" ["1", "junk"] = .replace "notes.txt" :=
  replace_returns_original ["notes.txt"] "notes.txt" "1" ["junk"] (by decide)

/-- C3: in the custom-name sub-state, re-entering the identical existing
name that was just rejected restarts the whole resolver fresh with that
name as the new original; the overall result is whatever the fresh session
yields. Stated end to end: after choosing option 3 and typing the existing
name `n` twice, the session continues exactly as a fresh session on `n`. -/
theorem custom_duplicate_reenters (dir : List String) (originalFilename n : String)
    (rest : List String) (hmem : n ∈ dir) (htrim : jsTrim n = n) (hne : n ≠ "") :
    handleFileNameConflict dir originalFilename ("3" :: n :: n :: rest) =
      handleFileNameConflict dir n rest := by
  rw [handleFileNameConflict, conflictLoop]
  have h3 : jsTrim "3" = "3" := by decide
  have hex : fileExists dir n = true := by simpa [fileExists] using hmem
  simp only [h3]
  norm_num
  rw [conflictLoop]
  simp only [htrim, hne, if_false, hex, if_true]
  rw [conflictLoop]
  simp only [htrim, hne, if_false, hex, if_true, if_pos rfl]
  rfl

/-- Witness for `custom_duplicate_reenters`: the fresh session on `b.txt`
then resolves by Replace to `b.txt`. -/
theorem custom_duplicate_reenters_witness :
    handleFileNameConflict ["a.txt", "b.txt"] "a.txt" ["3", "b.txt", "b.txt", "1"] =
      handleFileNameConflict ["a.txt", "b.txt"] "b.txt" ["1"] ∧
    handleFileNameConflict ["a.txt", "b.txt"] "a.txt" ["3", "b.txt", "b.txt", "1"] =
      .replace "b.txt" := by
  have h := custom_duplicate_reenters ["a.txt", "b.txt"] "a.txt" "b.txt" ["1"]
    (by decide) (by decide) (by decide)
  exact ⟨h, by rw [h]; decide⟩

/-- C4: an empty submission in the custom-name sub-state keeps the session
in the sub-state with the remembered rejection unchanged when no rejection
has been recorded, and returns to the top menu once a rejection exists. -/
theorem custom_empty_submission (dir : List String)
    (originalFilename autoNumberedName s : String) (rest : List String)
    (h : jsTrim s = "") :
    conflictLoop dir originalFilename autoNumberedName (.customEntry none) (s :: rest) =
      conflictLoop dir originalFilename autoNumberedName (.customEntry none) rest ∧
    ∀ firstAttempt,
      conflictLoop dir originalFilename autoNumberedName
          (.customEntry (some firstAttempt)) (s :: rest) =
        conflictLoop dir originalFilename autoNumberedName .top rest := by
  constructor
  · rw [conflictLoop]
    simp [h]
  · intro firstAttempt
    rw [conflictLoop]
    simp [h]

/-- Witness for `custom_empty_submission` at a concrete session state. -/
theorem custom_empty_submission_witness :
    (conflictLoop ["a.txt"] "a.txt" "a (2).txt" (.customEntry none) ["", "4"] =
      conflictLoop ["a.txt"] "a.txt" "a (2).txt" (.customEntry none) ["4"]) ∧
    (conflictLoop ["a.txt"] "a.txt" "a (2).txt" (.customEntry (some "b.txt")) ["", "4"] =
      conflictLoop ["a.txt"] "a.txt" "a (2).txt" .top ["4"]) := by
  have h := custom_empty_submission ["a.txt"] "a.txt" "a (2).txt" "" ["4"] (by decide)
  exact ⟨h.1, h.2 "b.txt"⟩

/-- The `file` object of the metadata API response; only `downloadUrl` is
read by the program. JS falsy-testing of a missing or empty URL is modelled
by `Option` plus an emptiness check. -/
structure FileInfo where
  downloadUrl : String
deriving DecidableEq

/-- The metadata API response body `{ file?: { downloadUrl, ... } }`. -/
structure ApiResponse where
  file : Option FileInfo
deriving DecidableEq

/-- Outcome of the metadata request issued by `fetchFileInfo`: either a
decoded body, or a rejection with `axios.isAxiosError` true (HTTP error
status, or no response for a network failure). -/
inductive FetchOutcome where
  | success (response : ApiResponse)
  | axiosError (status : Option Nat)
deriving DecidableEq

/-- Outcome of `downloadFile`: success; a rejection of the axios request
for the file body (transport/HTTP failure establishing the download, an
axios error); or a write-stream failure (the `writer.on('error')` path),
which rejects with a non-axios error. -/
inductive DownloadOutcome where
  | success
  | axiosError (status : Option Nat)
  | writeError
deriving DecidableEq

/-- Whether a metadata outcome is an axios rejection. -/
def FetchOutcome.isAxiosErr : FetchOutcome → Bool
  | .axiosError _ => true
  | .success _ => false

/-- Whether a download outcome is an axios rejection. -/
def DownloadOutcome.isAxiosErr : DownloadOutcome → Bool
  | .axiosError _ => true
  | .success => false
  | .writeError => false

/-- Observable outcome of one CLI invocation: the exit code (`none` when
the run is still blocked on interactive input), whether the metadata
request was issued, whether the browser fallback was opened, whether the
download was attempted, and the saved filename on success. -/
structure ActionOutcome where
  exitCode : Option Nat
  metadataRequested : Bool
  fallbackOpened : Bool
  downloadAttempted : Bool
  savedAs : Option String
deriving DecidableEq

/-- The conflict step of the action: run the resolver only when the derived
filename exists; `none` means blocked on input, `some none` cancellation,
`some (some f)` the final filename. -/
def resolveConflictOutcome (dir userInputs : List String) (filename : String) :
    Option (Option String) :=
  if fileExists dir filename then
    match handleFileNameConflict dir filename userInputs with
    | .noInput => none
    | .cancelled => some none
    | .replace n => some (some n)
    | .autoNumbered n => some (some n)
    | .custom n => some (some n)
  else some (some filename)

/-- `program.action` from `src/index.ts` (lines 252-322). The single
`try`/`catch` spans both the metadata fetch and the download; its handler
opens the browser fallback exactly when `axios.isAxiosError(error)` holds,
regardless of which await rejected, and exits 1 either way. -/
def runAction (parse : String → Option URLParts) (dir userInputs : List String)
    (fetch : FetchOutcome) (dl : DownloadOutcome) (input : String) : ActionOutcome :=
  match extractSnippetId parse input with
  | none => ⟨some 1, false, false, false, none⟩
  | some resolved =>
    match fetch with
    | .axiosError _ => ⟨some 1, true, true, false, none⟩
    | .success response =>
      match response.file with
      | none => ⟨some 1, true, false, false, none⟩
      | some fileObj =>
        if fileObj.downloadUrl = "" then ⟨some 1, true, false, false, none⟩
        else
          let filename := getFilenameFromUrl parse fileObj.downloadUrl resolved.snippetId
          match resolveConflictOutcome dir userInputs filename with
          | none => ⟨none, true, false, false, none⟩
          | some none => ⟨some 0, true, false, false, none⟩
          | some (some finalName) =>
            match dl with
            | .success => ⟨some 0, true, false, true, some finalName⟩
            | .axiosError _ => ⟨some 1, true, true, true, none⟩
            | .writeError => ⟨some 1, true, false, true, none⟩

/-- C2 counterexample: the metadata fetch succeeds, the axios request for
the file body fails (a transport failure of the download), and the browser
fallback IS opened — the shared catch treats any axios rejection as a
metadata failure. This contradicts the claim that a download transport
failure is reported with no fallback invoked. -/
theorem download_axios_error_opens_fallback :
    (runAction (fun _ => none) [] [] (.success ⟨some ⟨"u"⟩⟩) (.axiosError none)
        "abc").fallbackOpened = true ∧
    (runAction (fun _ => none) [] [] (.success ⟨some ⟨"u"⟩⟩) (.axiosError none)
        "abc").exitCode = some 1 ∧
    (FetchOutcome.success ⟨some ⟨"u"⟩⟩).isAxiosErr = false := by
  decide

/-- C2 amended: the fallback opens iff the resolver succeeded and an axios
rejection was caught — from the metadata fetch, or from the download
request when the run reached the download; every fallback run exits 1; a
download failure that is not an axios rejection (write-stream error) opens
no fallback. -/
theorem fallback_iff_axios_error (parse : String → Option URLParts)
    (dir userInputs : List String) (fetch : FetchOutcome) (dl : DownloadOutcome)
    (input : String) :
    ((runAction parse dir userInputs fetch dl input).fallbackOpened = true ↔
      ((extractSnippetId parse input).isSome = true ∧
        (fetch.isAxiosErr = true ∨
          ((runAction parse dir userInputs fetch dl input).downloadAttempted = true ∧
            dl.isAxiosErr = true)))) ∧
    ((runAction parse dir userInputs fetch dl input).fallbackOpened = true →
      (runAction parse dir userInputs fetch dl input).exitCode = some 1) ∧
    ((runAction parse dir userInputs fetch dl input).downloadAttempted = true →
      dl.isAxiosErr = false →
      (runAction parse dir userInputs fetch dl input).fallbackOpened = false) := by
  cases hE : extractSnippetId parse input with
  | none => simp [runAction, hE]
  | some resolved =>
    cases fetch with
    | axiosError st => simp [runAction, hE, FetchOutcome.isAxiosErr]
    | success response =>
      cases hF : response.file with
      | none => simp [runAction, hE, hF, FetchOutcome.isAxiosErr]
      | some fileObj =>
        by_cases hurl : fileObj.downloadUrl = ""
        · simp [runAction, hE, hF, hurl, FetchOutcome.isAxiosErr]
        · cases hC : resolveConflictOutcome dir userInputs
            (getFilenameFromUrl parse fileObj.downloadUrl resolved.snippetId) with
          | none => simp [runAction, hE, hF, hurl, hC, FetchOutcome.isAxiosErr]
          | some fin =>
            cases fin with
            | none => simp [runAction, hE, hF, hurl, hC, FetchOutcome.isAxiosErr]
            | some finalName =>
              cases dl <;>
                simp [runAction, hE, hF, hurl, hC, FetchOutcome.isAxiosErr,
                  DownloadOutcome.isAxiosErr]

/-- Witness for `fallback_iff_axios_error` at concrete runs: a download
axios failure after a successful fetch (fallback opened, exit 1) and a
write-stream failure (no fallback). -/
theorem fallback_iff_axios_error_witness :
    ((runAction (fun _ => none) [] [] (.success ⟨some ⟨"u"⟩⟩) (.axiosError none)
        "abc").fallbackOpened = true ↔
      ((extractSnippetId (fun _ => none) "abc").isSome = true ∧
        ((FetchOutcome.success ⟨some ⟨"u"⟩⟩).isAxiosErr = true ∨
          ((runAction (fun _ => none) [] [] (.success ⟨some ⟨"u"⟩⟩) (.axiosError none)
              "abc").downloadAttempted = true ∧
            (DownloadOutcome.axiosError none).isAxiosErr = true)))) ∧
    (runAction (fun _ => none) [] [] (.success ⟨some ⟨"u"⟩⟩) (.axiosError none)
        "abc").exitCode = some 1 ∧
    (runAction (fun _ => none) [] [] (.success ⟨some ⟨"u"⟩⟩) .writeError
        "abc").fallbackOpened = false := by
  refine ⟨(fallback_iff_axios_error (fun _ => none) [] [] (.success ⟨some ⟨"u"⟩⟩)
      (.axiosError none) "abc").1,
    (fallback_iff_axios_error (fun _ => none) [] [] (.success ⟨some ⟨"u"⟩⟩)
      (.axiosError none) "abc").2.1 (by decide),
    (fallback_iff_axios_error (fun _ => none) [] [] (.success ⟨some ⟨"u"⟩⟩)
      .writeError "abc").2.2 (by decide) (by decide)⟩

/-- C7: an input that reaches the URL branch (it contains `://` or `/`) and
parses to a hostname outside the four allow-listed domains is rejected:
the resolver returns `none`, and the whole action reports exit code 1 with
no metadata request (no network call), no fallback, and no download,
whatever the path was. -/
theorem nonallowlisted_host_rejected (parse : String → Option URLParts)
    (input : String) (u : URLParts)
    (hbranch : containsL "://".data input.data = true ∨
      containsL "/".data input.data = true)
    (hp : parse input = some u)
    (hhost : u.hostname ∉ SUPPORTED_DOMAINS) :
    extractSnippetId parse input = none ∧
    ∀ (dir userInputs : List String) (fetch : FetchOutcome) (dl : DownloadOutcome),
      runAction parse dir userInputs fetch dl input = ⟨some 1, false, false, false, none⟩ := by
  have hfind : SUPPORTED_DOMAINS.find? (fun domain => u.hostname == domain) = none := by
    rw [List.find?_eq_none]
    intro x hx
    simp only [beq_iff_eq]
    exact fun he => hhost (he ▸ hx)
  have hext : extractSnippetId parse input = none := by
    rcases hbranch with h | h <;> simp [extractSnippetId, h, hp, hfind]
  exact ⟨hext, fun dir userInputs fetch dl => by simp [runAction, hext]⟩

/-- Witness for `nonallowlisted_host_rejected` with a parser sending the
input to hostname `evil.example`. -/
theorem nonallowlisted_host_rejected_witness :
    extractSnippetId (fun _ => some ⟨"evil.example", "/abc"⟩) "https://evil.example/abc" =
      none ∧
    runAction (fun _ => some ⟨"evil.example", "/abc"⟩) [] [] (.success ⟨some ⟨"u"⟩⟩)
        .success "https://evil.example/abc" = ⟨some 1, false, false, false, none⟩ := by
  have h := nonallowlisted_host_rejected (fun _ => some ⟨"evil.example", "/abc"⟩)
    "https://evil.example/abc" ⟨"evil.example", "/abc"⟩ (Or.inl (by decide)) rfl (by decide)
  exact ⟨h.1, h.2 [] [] (.success ⟨some ⟨"u"⟩⟩) .success⟩

end Dropcode
